import Mathlib

/-!
Verification of the resilient-cleanup resolver found in
`media-api-tests.js` (`safeDeleteDocument`) and
`authorization-api-tests.js` (`safeDeletePage`) of the
apos-sdk-smoketest repository.

The JavaScript collaborators (`deleteMethod`, `unpublishMethod`,
`pageGetById`, `pageDeleteById`, `pageUnpublishById`) are async
functions that either resolve with a `{ status }` response or throw an
error carrying `e.response?.status` and `e.message`.  They are embedded
as oracle functions returning an explicit outcome datatype; a thrown
error is the `exn` constructor, a resolved response is `ok status`.
-/

namespace AposCleanup

/-- Outcome of one call to a delete-style collaborator: the promise either
resolves with an HTTP status (`ok`) or rejects (`exn`) carrying the
optional `e.response?.status` and the message `e.message`. -/
inductive DelOutcome where
  | ok (status : Nat)
  | exn (status : Option Nat) (msg : String)
  deriving DecidableEq, Repr

/-- Outcome of one call to an unpublish-style collaborator, same shape as
`DelOutcome`; `safeDeleteDocument` only logs it and never branches on it
beyond choosing a log line. -/
inductive UnpubOutcome where
  | ok (status : Nat)
  | exn (status : Option Nat) (msg : String)
  deriving DecidableEq, Repr

/-- Outcome of one call to `pageGetById`: either the page data, of which
only `aposDocId` is read by `safeDeletePage`, or a thrown error. -/
inductive GetOutcome where
  | ok (aposDocId : String)
  | exn (msg : String)
  deriving DecidableEq, Repr

/-- Observable result of one `safeDeleteDocument` run, classifying which
return path was taken.  `deleted id` is the `resp.status === 200` branch
(returns `true`), `alreadyAbsent id` the caught 404 branch (returns
`true`, logged as "already gone"), `failed reasons` the fall-through
after the candidate loop (returns `false`, one warning logged per failed
thrown attempt), `invalidInput` the `if (!itemId) return false` guard. -/
inductive Outcome where
  | deleted (id : String)
  | alreadyAbsent (id : String)
  | failed (reasons : List String)
  | invalidInput
  deriving DecidableEq, Repr

/-- The boolean value `safeDeleteDocument` actually returns for each
outcome classification. -/
def resultBool : Outcome → Bool
  | .deleted _ => true
  | .alreadyAbsent _ => true
  | .failed _ => false
  | .invalidInput => false

/-- JavaScript `s.replace(pat, repl)` with string arguments: replace the
first occurrence of `pat` only, character-list version. -/
def replaceFirstL (pat repl : List Char) : List Char → List Char
  | [] => []
  | c :: cs =>
    if pat.isPrefixOf (c :: cs) then repl ++ (c :: cs).drop pat.length
    else c :: replaceFirstL pat repl cs

/-- JavaScript `itemId.replace(':en:published', ':en:draft')`. -/
def toDraft (s : String) : String :=
  ⟨replaceFirstL ":en:published".data ":en:draft".data s.data⟩

/-- JavaScript `itemId.split(':')[0]`: the prefix of `s` before the
first colon (all of `s` if there is none). -/
def baseId (s : String) : String :=
  ⟨s.data.takeWhile (fun c => c ≠ ':')⟩

/-- Substring test on character lists, for JavaScript `s.includes(pat)`. -/
def hasSubL (pat : List Char) : List Char → Bool
  | [] => pat.isEmpty
  | c :: cs => pat.isPrefixOf (c :: cs) || hasSubL pat cs

/-- JavaScript `pageId.includes(':en:published')`. -/
def containsPublished (s : String) : Bool :=
  hasSubL ":en:published".data s.data

/-- Order-preserving duplicate removal keeping first occurrences, with an
accumulator of already-seen elements: the semantics of the JavaScript
`[...new Set(tryIds)]` spread, whose `Set` iterates in insertion order. -/
def dedupFirstAux (seen : List String) : List String → List String
  | [] => []
  | x :: xs =>
    if x ∈ seen then dedupFirstAux seen xs
    else x :: dedupFirstAux (x :: seen) xs

/-- `[...new Set(l)]`: duplicates removed, first occurrences kept. -/
def dedupFirst (l : List String) : List String :=
  dedupFirstAux [] l

/-- The candidate id list built at line 89-90 of `media-api-tests.js`:
`[...new Set([itemId, itemId.replace(':en:published', ':en:draft'),
itemId.split(':')[0]])]`. -/
def candidates (itemId : String) : List String :=
  dedupFirst [itemId, toDraft itemId, baseId itemId]

/-- The warning text logged when a delete attempt throws a non-404 error:
`Delete attempt with ${id} failed: ${e.response?.status || e.message}`,
where `||` falls back to the message when the status is absent or `0`. -/
def mkFailMsg (id : String) (st : Option Nat) (msg : String) : String :=
  "Delete attempt with " ++ id ++ " failed: " ++
    (match st with
     | some n => if n = 0 then msg else toString n
     | none => msg)

/-- The reason an oracle `δ` produces for candidate `id` when it throws. -/
def failMsgOf (δ : String → DelOutcome) (id : String) : String :=
  match δ id with
  | .exn st msg => mkFailMsg id st msg
  | .ok _ => ""

/-- Result of the candidate loop: the classified outcome, the ids passed
to the delete collaborator in call order, and the final collaborator
state. -/
structure LoopRes (σ : Type) where
  outcome : Outcome
  calls : List String
  store : σ
  deriving Repr

/-- The `for (const id of [...new Set(tryIds)])` loop of
`safeDeleteDocument` (media-api-tests.js lines 90-98), threading an
explicit collaborator state `σ` through the delete calls:
`resp.status === 200` returns success at once, a thrown 404 returns
"already gone" at once, any other thrown error logs one warning and
continues, and a resolved non-200 response silently continues. -/
def runCandidates {σ : Type} (step : σ → String → DelOutcome × σ) :
    σ → List String → List String → LoopRes σ
  | s, reasons, [] => ⟨.failed reasons.reverse, [], s⟩
  | s, reasons, id :: rest =>
    match step s id with
    | (.ok st, s1) =>
      if st = 200 then ⟨.deleted id, [id], s1⟩
      else
        let r := runCandidates step s1 reasons rest
        ⟨r.outcome, id :: r.calls, r.store⟩
    | (.exn st msg, s1) =>
      if st = some 404 then ⟨.alreadyAbsent id, [id], s1⟩
      else
        let r := runCandidates step s1 (mkFailMsg id st msg :: reasons) rest
        ⟨r.outcome, id :: r.calls, r.store⟩

/-- Observable result of one `safeDeleteDocument` call: the outcome, the
delete calls made in order, and how many times the unpublish
collaborator was invoked. -/
structure RunResult where
  outcome : Outcome
  deleteCalls : List String
  unpublishCalls : Nat
  deriving DecidableEq, Repr

/-- `safeDeleteDocument(itemId, kind, deleteMethod, unpublishMethod)`
from media-api-tests.js lines 79-104, over an explicit collaborator
state `σ`.  `itemId` is `none` for `null`/`undefined`; the JavaScript
falsy guard `if (!itemId) return false` also fires on the empty string.
When present, the unpublish collaborator is invoked once with `itemId`
and every one of its outcomes is ignored (both catch branches fall
through).  Then the candidate loop runs. -/
def safeDeleteDocument {σ : Type} (itemId : Option String)
    (del : σ → String → DelOutcome × σ)
    (unpub : Option (σ → String → UnpubOutcome × σ))
    (s0 : σ) : RunResult × σ :=
  match itemId with
  | none => (⟨.invalidInput, [], 0⟩, s0)
  | some item =>
    if item = "" then (⟨.invalidInput, [], 0⟩, s0)
    else
      let afterUnpub : Nat × σ :=
        match unpub with
        | none => (0, s0)
        | some f => (1, (f s0 item).2)
      let r := runCandidates del afterUnpub.2 [] (candidates item)
      (⟨r.outcome, r.calls, afterUnpub.1⟩, r.store)

/-- A logical reference to one stored content item, as kept in
`state.created` entries `{ id, type, aposDocId }` of media-api-tests.js:
the originally obtained id and the optional stable `aposDocId`. -/
structure ContentRef where
  rawId : String
  aposDocId : Option String
  deriving DecidableEq, Repr

/-- The id the cleanup caller actually passes to `safeDeleteDocument`
(media-api-tests.js line 328: `it.aposDocId || it.id`, JavaScript `||`,
so an empty `aposDocId` also falls back to the raw id). -/
def effectiveId (ref : ContentRef) : String :=
  match ref.aposDocId with
  | some a => if a = "" then ref.rawId else a
  | none => ref.rawId

/-- Stateless delete oracle lifted into the state-threading shape. -/
def liftDel (δ : String → DelOutcome) : Unit → String → DelOutcome × Unit :=
  fun _ id => (δ id, ())

/-- Stateless unpublish oracle lifted into the state-threading shape. -/
def liftUnpub (f : String → UnpubOutcome) : Unit → String → UnpubOutcome × Unit :=
  fun _ id => (f id, ())

/-- One retirement of a `ContentRef` with stateless oracles: the
composite of the cleanup call site (media-api-tests.js line 328) and
`safeDeleteDocument`. -/
def retire (ref : ContentRef) (δ : String → DelOutcome)
    (u : Option (String → UnpubOutcome)) : RunResult :=
  (safeDeleteDocument (some (effectiveId ref)) (liftDel δ)
    (Option.map liftUnpub u) ()).1

/-- The candidate ids a `retire` run derives, as a function of the ref. -/
def retireCandidates (ref : ContentRef) : List String :=
  candidates (effectiveId ref)

/-- `safeDeleteDocument` with stateless oracles, for claims about the
function itself (falsy-guard behaviour). -/
def safeDeleteDoc (itemId : Option String) (δ : String → DelOutcome)
    (u : Option (String → UnpubOutcome)) : RunResult :=
  (safeDeleteDocument itemId (liftDel δ) (Option.map liftUnpub u) ()).1

/-- Modelled from the spec, section 3 `IdCandidateSet` (this definition
follows the specification's words, for comparison against the code's
`retireCandidates`): `aposDocId` if known, then `rawId` with the
published-mode marker rewritten to draft-mode, then `rawId` with the
locale/mode suffix stripped; duplicates removed preserving first
occurrence; falling back to `rawId` itself when empty. -/
def specCandidates (ref : ContentRef) : List String :=
  let base :=
    (match ref.aposDocId with
     | some a => [a]
     | none => []) ++ [toDraft ref.rawId, baseId ref.rawId]
  let ded := dedupFirst base
  if ded.isEmpty then [ref.rawId] else ded

/-- The cleanup batch loop of media-api-tests.js lines 317-330: iterate
`[...state.created].reverse()`, look up the per-kind operations, and
call `safeDeleteDocument(it.aposDocId || it.id, ...)` for every item
with no early exit. -/
def cleanupBatch (items : List ContentRef)
    (ops : ContentRef → (String → DelOutcome) × Option (String → UnpubOutcome)) :
    List RunResult :=
  items.reverse.map (fun it => retire it (ops it).1 (ops it).2)

/-- A backing store for one logical resource, for the idempotence claim:
the set of identifier strings the store recognizes as aliases of the
resource, whether the resource is currently present, and the thrown
error (status, message) the store produces for any other identifier. -/
structure Store where
  aliases : List String
  present : Bool
  errOf : String → Option Nat × String

/-- Delete against the backing store: an alias of a present resource
succeeds and removes the resource; an alias of an absent resource throws
404 (not found); any other identifier throws the store's error for it
and leaves the store unchanged. -/
def storeDelete (S : Store) (id : String) : DelOutcome × Store :=
  if id ∈ S.aliases then
    if S.present then (.ok 200, { S with present := false })
    else (.exn (some 404) "not found", S)
  else
    (.exn (S.errOf id).1 (S.errOf id).2, S)

/-- Retire a ref against a backing store (delete only: the unpublish
pre-step's outcome is ignored by the resolver and does not affect the
store's delete behaviour in this model). -/
def retireS (ref : ContentRef) (S : Store) : RunResult × Store :=
  safeDeleteDocument (some (effectiveId ref)) storeDelete none S

/-- The delete id `safeDeletePage` computes first
(authorization-api-tests.js lines 844-855): the page's `aposDocId` when
the lookup succeeded, else the base id when the supplied id carries the
published marker, else the supplied id itself. -/
def pageDeleteId (pageId : String) (g : GetOutcome) : String :=
  match g with
  | .ok apos => apos
  | .exn _ => if containsPublished pageId then baseId pageId else pageId

/-- Observable result of one `safeDeletePage` run: the boolean it
returns and the ids passed to `pageDeleteById` in call order. -/
structure PageRun where
  result : Bool
  deleteCalls : List String
  deriving DecidableEq, Repr

/-- `safeDeletePage(pageId, pageName)` from authorization-api-tests.js
lines 816-911.  The page lookup and the unpublish call are each wrapped
in their own try/catch, so only the first `pageDeleteById` can reach the
outer catch.  A resolved non-200 first delete returns `false` at once;
a thrown first delete falls to the alternative attempts, which are tried
only when `pageId` contains `:en:published`: first the draft rewrite of
`pageId`, then its base id, each accepted only on a resolved 200. -/
def safeDeletePage (pageId : String) (get : String → GetOutcome)
    (unpub : String → UnpubOutcome) (del : String → DelOutcome) : PageRun :=
  let _ := get pageId
  let _ := unpub pageId
  let dId := pageDeleteId pageId (get pageId)
  match del dId with
  | .ok st => if st = 200 then ⟨true, [dId]⟩ else ⟨false, [dId]⟩
  | .exn _ _ =>
    if containsPublished pageId then
      let draftId := toDraft pageId
      let draftHit : Bool :=
        match del draftId with
        | .ok st => st = 200
        | .exn _ _ => false
      if draftHit then ⟨true, [dId, draftId]⟩
      else
        let bId := baseId pageId
        match del bId with
        | .ok st => if st = 200 then ⟨true, [dId, draftId, bId]⟩
                    else ⟨false, [dId, draftId, bId]⟩
        | .exn _ _ => ⟨false, [dId, draftId, bId]⟩
    else ⟨false, [dId]⟩

/-! ## Helper lemmas -/

theorem mem_dedupFirstAux (x : String) :
    ∀ (l seen : List String), x ∈ dedupFirstAux seen l ↔ x ∈ l ∧ x ∉ seen
  | [], seen => by simp [dedupFirstAux]
  | a :: t, seen => by
    rw [dedupFirstAux]
    by_cases ha : a ∈ seen
    · rw [if_pos ha, mem_dedupFirstAux x t seen]
      simp only [List.mem_cons]
      constructor
      · rintro ⟨h1, h2⟩
        exact ⟨Or.inr h1, h2⟩
      · rintro ⟨h1, h2⟩
        rcases h1 with rfl | h1
        · exact absurd ha h2
        · exact ⟨h1, h2⟩
    · rw [if_neg ha, List.mem_cons, mem_dedupFirstAux x t (a :: seen)]
      simp only [List.mem_cons]
      constructor
      · rintro (rfl | ⟨h1, h2⟩)
        · exact ⟨Or.inl rfl, ha⟩
        · exact ⟨Or.inr h1, fun hx => h2 (Or.inr hx)⟩
      · rintro ⟨h1, h2⟩
        rcases h1 with rfl | h1
        · exact Or.inl rfl
        · by_cases hxa : x = a
          · exact Or.inl hxa
          · exact Or.inr ⟨h1, fun hx => hx.elim hxa h2⟩

theorem nodup_dedupFirstAux :
    ∀ (l seen : List String), (dedupFirstAux seen l).Nodup
  | [], seen => by simp [dedupFirstAux]
  | a :: t, seen => by
    rw [dedupFirstAux]
    by_cases ha : a ∈ seen
    · rw [if_pos ha]
      exact nodup_dedupFirstAux t seen
    · rw [if_neg ha]
      refine List.nodup_cons.mpr ⟨fun hmem => ?_, nodup_dedupFirstAux t (a :: seen)⟩
      exact ((mem_dedupFirstAux a t (a :: seen)).mp hmem).2 (List.mem_cons_self _ _)

theorem sublist_dedupFirstAux :
    ∀ (l seen : List String), List.Sublist (dedupFirstAux seen l) l
  | [], _ => List.Sublist.refl _
  | a :: t, seen => by
    rw [dedupFirstAux]
    by_cases ha : a ∈ seen
    · rw [if_pos ha]
      exact (sublist_dedupFirstAux t seen).cons a
    · rw [if_neg ha]
      exact (sublist_dedupFirstAux t (a :: seen)).cons₂ a

theorem dedupFirst_cons (x : String) (l : List String) :
    dedupFirst (x :: l) = x :: dedupFirstAux [x] l := by
  rw [dedupFirst, dedupFirstAux]
  simp

theorem candidates_cons (s : String) :
    candidates s = s :: dedupFirstAux [s] [toDraft s, baseId s] := by
  rw [candidates, dedupFirst_cons]

theorem retire_outcome_calls (ref : ContentRef) (δ : String → DelOutcome)
    (u : Option (String → UnpubOutcome)) (he : effectiveId ref ≠ "") :
    (retire ref δ u).outcome =
      (runCandidates (liftDel δ) () [] (retireCandidates ref)).outcome ∧
    (retire ref δ u).deleteCalls =
      (runCandidates (liftDel δ) () [] (retireCandidates ref)).calls := by
  cases u <;> simp [retire, safeDeleteDocument, he, retireCandidates]

theorem runCandidates_cons_ok200 {δ : String → DelOutcome} {id : String}
    (h : δ id = .ok 200) (s : Unit) (reasons rest : List String) :
    runCandidates (liftDel δ) s reasons (id :: rest) = ⟨.deleted id, [id], s⟩ := by
  simp [runCandidates, liftDel, h]

theorem runCandidates_cons_404 {δ : String → DelOutcome} {id m : String}
    (h : δ id = .exn (some 404) m) (s : Unit) (reasons rest : List String) :
    runCandidates (liftDel δ) s reasons (id :: rest) = ⟨.alreadyAbsent id, [id], s⟩ := by
  simp [runCandidates, liftDel, h]

theorem runCandidates_all_err (δ : String → DelOutcome) :
    ∀ (l : List String) (reasons : List String) (s : Unit),
      (∀ id ∈ l, ∃ st msg, δ id = .exn st msg ∧ st ≠ some 404) →
      runCandidates (liftDel δ) s reasons l =
        ⟨.failed (reasons.reverse ++ l.map (failMsgOf δ)), l, s⟩
  | [], reasons, s, _ => by simp [runCandidates]
  | id :: rest, reasons, s, h => by
    obtain ⟨st, msg, heq, hne⟩ := h id (List.mem_cons_self _ _)
    have ih := runCandidates_all_err δ rest (mkFailMsg id st msg :: reasons) s
      (fun i hi => h i (List.mem_cons_of_mem id hi))
    simp [runCandidates, liftDel, heq, hne, ih, failMsgOf, List.reverse_cons,
      List.append_assoc]

theorem runCandidates_calls_head {σ : Type} (step : σ → String → DelOutcome × σ)
    (s : σ) (reasons : List String) (id : String) (rest : List String) :
    (runCandidates step s reasons (id :: rest)).calls.head? = some id := by
  rw [runCandidates]
  rcases hstep : step s id with ⟨o, s1⟩
  cases o with
  | ok st => by_cases h2 : st = 200 <;> simp [h2]
  | exn st msg => by_cases h4 : st = some 404 <;> simp [h4]

theorem runCandidatesS_cons_hit {S : Store} {id : String}
    (hid : id ∈ S.aliases) (hp : S.present = true) (reasons rest : List String) :
    runCandidates storeDelete S reasons (id :: rest) =
      ⟨.deleted id, [id], { S with present := false }⟩ := by
  rw [runCandidates]
  simp [storeDelete, hid, hp]

theorem runCandidatesS_cons_absent {S : Store} {id : String}
    (hid : id ∈ S.aliases) (hp : S.present = false) (reasons rest : List String) :
    runCandidates storeDelete S reasons (id :: rest) =
      ⟨.alreadyAbsent id, [id], S⟩ := by
  rw [runCandidates]
  simp [storeDelete, hid, hp]

theorem runCandidatesS_cons_err404 {S : Store} {id : String}
    (hid : id ∉ S.aliases) (h4 : (S.errOf id).1 = some 404)
    (reasons rest : List String) :
    runCandidates storeDelete S reasons (id :: rest) =
      ⟨.alreadyAbsent id, [id], S⟩ := by
  rw [runCandidates]
  simp [storeDelete, hid, h4]

theorem runCandidatesS_cons_err {S : Store} {id : String}
    (hid : id ∉ S.aliases) (h4 : (S.errOf id).1 ≠ some 404)
    (reasons rest : List String) :
    runCandidates storeDelete S reasons (id :: rest) =
      ⟨(runCandidates storeDelete S
          (mkFailMsg id (S.errOf id).1 (S.errOf id).2 :: reasons) rest).outcome,
       id :: (runCandidates storeDelete S
          (mkFailMsg id (S.errOf id).1 (S.errOf id).2 :: reasons) rest).calls,
       (runCandidates storeDelete S
          (mkFailMsg id (S.errOf id).1 (S.errOf id).2 :: reasons) rest).store⟩ := by
  rw [runCandidates]
  simp [storeDelete, hid, h4]

theorem runCandidates_store_pres :
    ∀ (l reasons : List String) (S : Store),
      ((runCandidates storeDelete S reasons l).store).aliases = S.aliases ∧
      ((runCandidates storeDelete S reasons l).store).errOf = S.errOf
  | [], reasons, S => by simp [runCandidates]
  | id :: rest, reasons, S => by
    by_cases hid : id ∈ S.aliases
    · by_cases hp : S.present
      · rw [runCandidatesS_cons_hit hid hp]
        exact ⟨rfl, rfl⟩
      · rw [runCandidatesS_cons_absent hid (by simpa using hp)]
        exact ⟨rfl, rfl⟩
    · by_cases h4 : (S.errOf id).1 = some 404
      · rw [runCandidatesS_cons_err404 hid h4]
        exact ⟨rfl, rfl⟩
      · rw [runCandidatesS_cons_err hid h4]
        exact runCandidates_store_pres rest
          (mkFailMsg id (S.errOf id).1 (S.errOf id).2 :: reasons) S

theorem retireS_eq (ref : ContentRef) (S : Store) (he : effectiveId ref ≠ "") :
    retireS ref S =
      (⟨(runCandidates storeDelete S [] (candidates (effectiveId ref))).outcome,
        (runCandidates storeDelete S [] (candidates (effectiveId ref))).calls, 0⟩,
       (runCandidates storeDelete S [] (candidates (effectiveId ref))).store) := by
  rw [retireS, safeDeleteDocument]
  simp [he]

theorem run_deleted_absent :
    ∀ (l : List String) (r1 r2 : List String) (S : Store) (i : String),
      (runCandidates storeDelete S r1 l).outcome = .deleted i →
      ∃ j, (runCandidates storeDelete (runCandidates storeDelete S r1 l).store
              r2 l).outcome = .alreadyAbsent j
  | [], r1, r2, S, i => by
    intro h
    simp [runCandidates] at h
  | id :: rest, r1, r2, S, i => by
    intro h
    by_cases hid : id ∈ S.aliases
    · by_cases hp : S.present
      · rw [runCandidatesS_cons_hit hid hp]
        refine ⟨id, ?_⟩
        show (runCandidates storeDelete { S with present := false }
          r2 (id :: rest)).outcome = _
        rw [runCandidatesS_cons_absent (S := { S with present := false }) hid rfl]
      · rw [runCandidatesS_cons_absent hid (by simpa using hp)] at h
        simp at h
    · by_cases h4 : (S.errOf id).1 = some 404
      · rw [runCandidatesS_cons_err404 hid h4] at h
        simp at h
      · rw [runCandidatesS_cons_err hid h4] at h ⊢
        simp only at h ⊢
        have hpres := runCandidates_store_pres rest
          (mkFailMsg id (S.errOf id).1 (S.errOf id).2 :: r1) S
        obtain ⟨j, hj⟩ := run_deleted_absent rest
          (mkFailMsg id (S.errOf id).1 (S.errOf id).2 :: r1)
          (mkFailMsg id (S.errOf id).1 (S.errOf id).2 :: r2) S i h
        refine ⟨j, ?_⟩
        have hid2 : id ∉ ((runCandidates storeDelete S
            (mkFailMsg id (S.errOf id).1 (S.errOf id).2 :: r1) rest).store).aliases := by
          rw [hpres.1]; exact hid
        have h42 : (((runCandidates storeDelete S
            (mkFailMsg id (S.errOf id).1 (S.errOf id).2 :: r1) rest).store).errOf id).1
            ≠ some 404 := by
          rw [hpres.2]; exact h4
        rw [runCandidatesS_cons_err hid2 h42]
        simp only
        rw [hpres.2]
        exact hj

/-! ## Claim theorems -/

/-- C1 (counterexample): the claim says that when `aposDocId` is null the
raw id in its original form is not among the candidates tried, and that
the candidate sequence is aposDocId / rewritten rawId / stripped rawId.
On the code, for `rawId = "xyz:en:published"` with no `aposDocId`, the
raw id itself is the first candidate and is the first id passed to the
delete operation, so the derived sequence differs from the specified
one. -/
theorem claim_C1_counterexample :
    "xyz:en:published" ∈ retireCandidates ⟨"xyz:en:published", none⟩ ∧
    "xyz:en:published" ∉ specCandidates ⟨"xyz:en:published", none⟩ ∧
    retireCandidates ⟨"xyz:en:published", none⟩ ≠
      specCandidates ⟨"xyz:en:published", none⟩ ∧
    (retire ⟨"xyz:en:published", none⟩ (fun _ => .exn (some 500) "e")
      none).deleteCalls = ["xyz:en:published", "xyz:en:draft", "xyz"] := by
  refine ⟨by decide, by decide, by decide, by decide⟩

/-- C1 (amended): for every ContentRef the derived candidate sequence is
exactly the effective id (aposDocId when known and non-empty, else
rawId), then the effective id with its published-mode marker rewritten
to draft-mode, then the effective id with any locale/mode suffix
stripped, with duplicates removed preserving first-occurrence order and
the sequence never empty; in particular, when aposDocId is null, rawId
in its original form is the first candidate tried. -/
theorem claim_C1_candidate_sequence (ref : ContentRef) :
    retireCandidates ref ≠ [] ∧
    (retireCandidates ref).head? = some (effectiveId ref) ∧
    (retireCandidates ref).Nodup ∧
    List.Sublist (retireCandidates ref)
      [effectiveId ref, toDraft (effectiveId ref), baseId (effectiveId ref)] ∧
    ∀ x, x ∈ retireCandidates ref ↔
      x ∈ [effectiveId ref, toDraft (effectiveId ref), baseId (effectiveId ref)] := by
  have hc : retireCandidates ref =
      effectiveId ref :: dedupFirstAux [effectiveId ref]
        [toDraft (effectiveId ref), baseId (effectiveId ref)] := by
    rw [retireCandidates, candidates_cons]
  refine ⟨by rw [hc]; exact List.cons_ne_nil _ _, by rw [hc]; rfl, ?_, ?_, ?_⟩
  · rw [retireCandidates, candidates, dedupFirst]
    exact nodup_dedupFirstAux _ _
  · rw [retireCandidates, candidates, dedupFirst]
    exact sublist_dedupFirstAux _ _
  · intro x
    rw [retireCandidates, candidates, dedupFirst, mem_dedupFirstAux]
    simp

/-- C2: when every candidate's delete call throws a non-404 error,
`retire` ends in the failure outcome carrying exactly one logged reason
per candidate attempted, in candidate order, and every candidate was
attempted. -/
theorem claim_C2_failure_aggregation (ref : ContentRef)
    (δ : String → DelOutcome) (u : Option (String → UnpubOutcome))
    (he : effectiveId ref ≠ "")
    (h : ∀ id ∈ retireCandidates ref, ∃ st msg, δ id = .exn st msg ∧ st ≠ some 404) :
    (retire ref δ u).outcome =
      .failed ((retireCandidates ref).map (failMsgOf δ)) ∧
    (retire ref δ u).deleteCalls = retireCandidates ref ∧
    ((retireCandidates ref).map (failMsgOf δ)).length =
      (retireCandidates ref).length := by
  have hr := retire_outcome_calls ref δ u he
  have hall := runCandidates_all_err δ (retireCandidates ref) [] () h
  refine ⟨?_, ?_, by simp⟩
  · rw [hr.1, hall]
    simp
  · rw [hr.2, hall]

/-- Witness for C2, spec example 4 shape: three candidates, all erroring
with status 409. -/
theorem claim_C2_witness :
    (retire ⟨"q:en:published", none⟩ (fun _ => .exn (some 409) "conflict")
      none).outcome =
      .failed ((retireCandidates ⟨"q:en:published", none⟩).map
        (failMsgOf (fun _ => .exn (some 409) "conflict"))) :=
  (claim_C2_failure_aggregation ⟨"q:en:published", none⟩
    (fun _ => .exn (some 409) "conflict") none (by decide)
    (fun id _ => ⟨some 409, "conflict", rfl, by decide⟩)).1

/-- C3: a thrown 404 on the first candidate short-circuits: the outcome
is already-absent at that candidate, exactly one delete call is made,
and the function returns `true` (success, not an error). -/
theorem claim_C3_short_circuit_404 (ref : ContentRef)
    (δ : String → DelOutcome) (u : Option (String → UnpubOutcome)) (m : String)
    (he : effectiveId ref ≠ "")
    (h : δ (effectiveId ref) = .exn (some 404) m) :
    (retire ref δ u).outcome = .alreadyAbsent (effectiveId ref) ∧
    (retire ref δ u).deleteCalls = [effectiveId ref] ∧
    resultBool (retire ref δ u).outcome = true := by
  have hr := retire_outcome_calls ref δ u he
  have hc : retireCandidates ref =
      effectiveId ref :: dedupFirstAux [effectiveId ref]
        [toDraft (effectiveId ref), baseId (effectiveId ref)] := by
    rw [retireCandidates, candidates_cons]
  have h1 := runCandidates_cons_404 h () [] (dedupFirstAux [effectiveId ref]
    [toDraft (effectiveId ref), baseId (effectiveId ref)])
  refine ⟨?_, ?_, ?_⟩
  · rw [hr.1, hc, h1]
  · rw [hr.2, hc, h1]
  · rw [hr.1, hc, h1]
    rfl

/-- Witness for C3, spec example 3 shape: a bare id whose delete throws
404 at once. -/
theorem claim_C3_witness :
    (retire ⟨"id1", none⟩ (fun _ => .exn (some 404) "nf") none).outcome =
      .alreadyAbsent "id1" ∧
    (retire ⟨"id1", none⟩ (fun _ => .exn (some 404) "nf") none).deleteCalls =
      ["id1"] := by
  have h := claim_C3_short_circuit_404 ⟨"id1", none⟩
    (fun _ => .exn (some 404) "nf") none "nf" (by decide) rfl
  exact ⟨h.1, h.2.1⟩

/-- C4: a resolved 200 on the first candidate short-circuits: the
outcome is deleted at that candidate, exactly one delete call is made,
and the function returns `true`. -/
theorem claim_C4_short_circuit_success (ref : ContentRef)
    (δ : String → DelOutcome) (u : Option (String → UnpubOutcome))
    (he : effectiveId ref ≠ "")
    (h : δ (effectiveId ref) = .ok 200) :
    (retire ref δ u).outcome = .deleted (effectiveId ref) ∧
    (retire ref δ u).deleteCalls.length = 1 ∧
    resultBool (retire ref δ u).outcome = true := by
  have hr := retire_outcome_calls ref δ u he
  have hc : retireCandidates ref =
      effectiveId ref :: dedupFirstAux [effectiveId ref]
        [toDraft (effectiveId ref), baseId (effectiveId ref)] := by
    rw [retireCandidates, candidates_cons]
  have h1 := runCandidates_cons_ok200 h () [] (dedupFirstAux [effectiveId ref]
    [toDraft (effectiveId ref), baseId (effectiveId ref)])
  refine ⟨?_, ?_, ?_⟩
  · rw [hr.1, hc, h1]
  · rw [hr.2, hc, h1]
    rfl
  · rw [hr.1, hc, h1]
    rfl

/-- Witness for C4, spec example 1 shape. -/
theorem claim_C4_witness :
    (retire ⟨"abc:en:published", some "abc"⟩ (fun _ => .ok 200) none).outcome =
      .deleted "abc" ∧
    (retire ⟨"abc:en:published", some "abc"⟩
      (fun _ => .ok 200) none).deleteCalls.length = 1 := by
  have h := claim_C4_short_circuit_success ⟨"abc:en:published", some "abc"⟩
    (fun _ => .ok 200) none (by decide) rfl
  exact ⟨h.1, h.2.1⟩

/-- C5: whatever the unpublish pre-step does (success, not-found, or a
thrown error), `retire` invokes it once, then derives candidates and
attempts delete exactly as it would with no pre-step at all, and a
delete success still yields the deleted outcome. -/
theorem claim_C5_unpublish_never_blocks (ref : ContentRef)
    (δ : String → DelOutcome) (f : String → UnpubOutcome)
    (he : effectiveId ref ≠ "") :
    (retire ref δ (some f)).outcome = (retire ref δ none).outcome ∧
    (retire ref δ (some f)).deleteCalls = (retire ref δ none).deleteCalls ∧
    (retire ref δ (some f)).unpublishCalls = 1 ∧
    (δ (effectiveId ref) = .ok 200 →
      (retire ref δ (some f)).outcome = .deleted (effectiveId ref)) := by
  have h1 := retire_outcome_calls ref δ (some f) he
  have h2 := retire_outcome_calls ref δ none he
  refine ⟨by rw [h1.1, h2.1], by rw [h1.2, h2.2],
    by simp [retire, safeDeleteDocument, he], fun h => ?_⟩
  have hc : retireCandidates ref =
      effectiveId ref :: dedupFirstAux [effectiveId ref]
        [toDraft (effectiveId ref), baseId (effectiveId ref)] := by
    rw [retireCandidates, candidates_cons]
  rw [h1.1, hc, runCandidates_cons_ok200 h]

/-- Witness for C5: an unpublish step that always throws does not stop a
successful delete. -/
theorem claim_C5_witness :
    (retire ⟨"abc", none⟩ (fun _ => .ok 200)
      (some (fun _ => .exn none "boom"))).outcome = .deleted "abc" :=
  (claim_C5_unpublish_never_blocks ⟨"abc", none⟩ (fun _ => .ok 200)
    (fun _ => .exn none "boom") (by decide)).2.2.2 rfl

/-- C6: when `aposDocId` is set (and non-empty, since the caller uses
JavaScript truthiness), the first id handed to the delete operation is
`aposDocId`, before any locale/mode-derived candidate. -/
theorem claim_C6_apos_first (ref : ContentRef) (δ : String → DelOutcome)
    (u : Option (String → UnpubOutcome)) (a : String)
    (ha : ref.aposDocId = some a) (hne : a ≠ "") :
    (retire ref δ u).deleteCalls.head? = some a ∧
    (retire ref δ u).deleteCalls ≠ [] := by
  have hea : effectiveId ref = a := by
    rw [effectiveId, ha]
    simp [hne]
  have hr := retire_outcome_calls ref δ u (by rw [hea]; exact hne)
  have hh := runCandidates_calls_head (liftDel δ) () [] a
    (dedupFirstAux [a] [toDraft a, baseId a])
  have hc : retireCandidates ref =
      effectiveId ref :: dedupFirstAux [effectiveId ref]
        [toDraft (effectiveId ref), baseId (effectiveId ref)] := by
    rw [retireCandidates, candidates_cons]
  constructor
  · rw [hr.2, hc, hea]
    exact hh
  · intro hnil
    rw [hr.2, hc, hea] at hnil
    rw [hnil] at hh
    simp at hh

/-- Witness for C6. -/
theorem claim_C6_witness :
    (retire ⟨"raw:en:published", some "abc"⟩ (fun _ => .exn (some 500) "e")
      none).deleteCalls.head? = some "abc" :=
  (claim_C6_apos_first ⟨"raw:en:published", some "abc"⟩
    (fun _ => .exn (some 500) "e") none "abc" rfl (by decide)).1

/-- C7: against a backing store, if a first `retire` of a ref returns
the deleted outcome, a second `retire` of the same ref against the
resulting store returns the already-absent outcome. -/
theorem claim_C7_idempotent (ref : ContentRef) (S : Store) (i : String)
    (h : (retireS ref S).1.outcome = .deleted i) :
    ∃ j, (retireS ref (retireS ref S).2).1.outcome = .alreadyAbsent j := by
  have he : effectiveId ref ≠ "" := by
    intro he0
    rw [retireS, safeDeleteDocument] at h
    simp [he0] at h
  rw [retireS_eq ref S he] at h
  simp only at h
  obtain ⟨j, hj⟩ := run_deleted_absent (candidates (effectiveId ref)) [] [] S i h
  refine ⟨j, ?_⟩
  rw [retireS_eq ref S he]
  simp only
  rw [retireS_eq ref _ he]
  simp only
  exact hj

/-- Witness for C7: one alias, present, deleted on the first call and
observed absent on the second. -/
theorem claim_C7_witness :
    ∃ j, (retireS ⟨"abc:en:published", some "abc"⟩
      ((retireS ⟨"abc:en:published", some "abc"⟩
        ⟨["abc"], true, fun _ => (some 500, "err")⟩).2)).1.outcome =
      .alreadyAbsent j :=
  claim_C7_idempotent ⟨"abc:en:published", some "abc"⟩
    ⟨["abc"], true, fun _ => (some 500, "err")⟩ "abc" (by decide)

/-- C8: the cleanup batch applies `retire` to every item with no early
exit (one failure never aborts the batch), and every `retire` result is
one of the four normal outcome values: nothing thrown by a collaborator
escapes as an error. -/
theorem claim_C8_total_independent (items : List ContentRef)
    (ops : ContentRef → (String → DelOutcome) × Option (String → UnpubOutcome)) :
    (cleanupBatch items ops).length = items.length ∧
    (∀ it ∈ items, retire it (ops it).1 (ops it).2 ∈ cleanupBatch items ops) ∧
    (∀ r ∈ cleanupBatch items ops,
      (∃ id, r.outcome = .deleted id) ∨ (∃ id, r.outcome = .alreadyAbsent id) ∨
      (∃ rs, r.outcome = .failed rs) ∨ r.outcome = .invalidInput) := by
  refine ⟨by simp [cleanupBatch], ?_, ?_⟩
  · intro it hit
    rw [cleanupBatch]
    exact List.mem_map_of_mem _ (List.mem_reverse.mpr hit)
  · intro r _
    cases ho : r.outcome with
    | deleted id => exact Or.inl ⟨id, rfl⟩
    | alreadyAbsent id => exact Or.inr (Or.inl ⟨id, rfl⟩)
    | failed rs => exact Or.inr (Or.inr (Or.inl ⟨rs, rfl⟩))
    | invalidInput => exact Or.inr (Or.inr (Or.inr rfl))

/-- Witness for C8. -/
theorem claim_C8_witness :
    (cleanupBatch [⟨"a", none⟩] (fun _ => (fun _ => .ok 200, none))).length =
      ([⟨"a", none⟩] : List ContentRef).length ∧
    retire ⟨"a", none⟩ (fun _ => .ok 200) none ∈
      cleanupBatch [⟨"a", none⟩] (fun _ => (fun _ => .ok 200, none)) :=
  ⟨(claim_C8_total_independent _ _).1,
   (claim_C8_total_independent _ _).2.1 _ (by simp)⟩

/-- C9: in `safeDeletePage`, when the supplied page id lacks the
`:en:published` marker, exactly one delete call is made (no alternative
candidates), and if that single attempt does not resolve with status
200 the function reports failure. -/
theorem claim_C9_marker_gates_alternatives (pageId : String)
    (g : String → GetOutcome) (u : String → UnpubOutcome)
    (del : String → DelOutcome)
    (h : containsPublished pageId = false) :
    (safeDeletePage pageId g u del).deleteCalls =
      [pageDeleteId pageId (g pageId)] ∧
    (del (pageDeleteId pageId (g pageId)) ≠ .ok 200 →
      (safeDeletePage pageId g u del).result = false) := by
  cases hd : del (pageDeleteId pageId (g pageId)) with
  | ok st =>
    by_cases h2 : st = 200
    · subst h2
      exact ⟨by simp [safeDeletePage, hd], fun hne => absurd rfl hne⟩
    · exact ⟨by simp [safeDeletePage, hd, h2],
        fun _ => by simp [safeDeletePage, hd, h2]⟩
  | exn st m =>
    exact ⟨by simp [safeDeletePage, hd, h],
      fun _ => by simp [safeDeletePage, hd, h]⟩

/-- Witness for C9: a marker-less page id whose only delete attempt
throws. -/
theorem claim_C9_witness :
    containsPublished "page1" = false ∧
    (safeDeletePage "page1" (fun _ => .exn "no") (fun _ => .exn none "x")
      (fun _ => .exn (some 500) "err")).deleteCalls = ["page1"] ∧
    (safeDeletePage "page1" (fun _ => .exn "no") (fun _ => .exn none "x")
      (fun _ => .exn (some 500) "err")).result = false := by
  have h := claim_C9_marker_gates_alternatives "page1" (fun _ => .exn "no")
    (fun _ => .exn none "x") (fun _ => .exn (some 500) "err") (by decide)
  exact ⟨by decide, h.1, h.2 (by decide)⟩

/-- C10: a falsy item id (null/undefined modelled as `none`, or the
empty string) makes `safeDeleteDocument` return `false` at once, with
zero unpublish invocations and zero delete invocations. -/
theorem claim_C10_falsy_guard (i : Option String) (δ : String → DelOutcome)
    (u : Option (String → UnpubOutcome)) (h : i = none ∨ i = some "") :
    safeDeleteDoc i δ u = ⟨.invalidInput, [], 0⟩ ∧
    resultBool (safeDeleteDoc i δ u).outcome = false := by
  rcases h with rfl | rfl
  · exact ⟨rfl, rfl⟩
  · exact ⟨rfl, rfl⟩

/-- Witness for C10. -/
theorem claim_C10_witness :
    safeDeleteDoc none (fun _ => .ok 200) none = ⟨.invalidInput, [], 0⟩ ∧
    resultBool (safeDeleteDoc none (fun _ => .ok 200) none).outcome = false :=
  claim_C10_falsy_guard none (fun _ => .ok 200) none (Or.inl rfl)

end AposCleanup
